import Mathlib

/-!
Verification development for the Personal Expense Tracker
(`src/expense_tracker.py`).

The Python program is shallowly embedded:

* Python `float` values (expense amounts, the budget) are modelled as `ℚ`.
  Every value a `float` can hold that arises in this program is an exact
  decimal, and Python guarantees `float(str(x)) == x`; the string
  conversion pair `str`/`float` is modelled by the exact decimal printer
  `printDecimal` and the plain decimal parser `parseDecimal` below
  (scientific notation, `inf`/`nan`, underscores and surrounding
  whitespace of Python's `float()` are outside the fragment the program
  itself produces and are not modelled).
* Python strings are Lean `String`s; the character-level operations the
  program relies on (`str.lower`, `str.strip`, lexicographic comparison
  by code point) are defined explicitly on `List Char` so that they
  compute by `decide`.  Only ASCII text is modelled.
* The interactive retry loops (re-prompting on invalid input) are
  modelled as single attempts returning `Option`/a failure flag.
* `datetime.strptime` with the formats `%Y-%m-%d` and `%m-%Y` is
  modelled after CPython's `_strptime` regular expressions
  (`%Y` = exactly four digits, `%m` = `1[0-2]|0[1-9]|[1-9]`,
  `%d` = `3[01]|[12]\d|0[1-9]|[1-9]| [1-9]`), followed by
  `datetime.date`'s calendar validation.
* The CSV layer is modelled at field granularity: a file is a list of
  rows, a row a list of cells.  `csv.DictWriter` with the standard
  field list writes the header row and one four-cell row per record;
  `csv.DictReader` consumes the first row as the header.  Files with
  the standard header are modelled (the header the program itself
  writes).  A record field that is absent is an `Option.none`.
* Python's `sorted` is stable; it is modelled by the canonical stable
  insertion sort `sortB` below (`sorted(key=k, reverse=True)` becomes
  `sortB` with the non-strict "key ≥ key" test, which places an earlier
  element before any later element with an equal key, exactly the
  stable descending order).
-/

attribute [local semireducible] Rat.add Rat.mul Rat.inv Rat.sub Rat.ofScientific

/-! ### Character and string utilities -/

/-- Numeric value of a digit character (`'0'` ↦ 0, …, `'9'` ↦ 9). -/
def digitVal (c : Char) : ℕ := c.toNat - 48

/-- Whether `c` is an ASCII digit `'0'`–`'9'`. -/
def isDigitChar (c : Char) : Bool := decide (48 ≤ c.toNat) && decide (c.toNat ≤ 57)

/-- ASCII lower-casing of one character; models Python's `str.lower` on
the ASCII fragment. -/
def charLowerAscii (c : Char) : Char :=
  if 65 ≤ c.toNat ∧ c.toNat ≤ 90 then Char.ofNat (c.toNat + 32) else c

/-- Models Python's `str.lower` (ASCII fragment). -/
def pythonLower (s : String) : String := String.mk (s.data.map charLowerAscii)

/-- Whether `c` is ASCII whitespace, as stripped by Python's `str.strip`. -/
def isSpaceChar (c : Char) : Bool :=
  decide (c.toNat = 32) || (decide (9 ≤ c.toNat) && decide (c.toNat ≤ 13))

/-- Models Python's `str.strip`: drop leading and trailing whitespace. -/
def stripChars (cs : List Char) : List Char :=
  ((cs.dropWhile isSpaceChar).reverse.dropWhile isSpaceChar).reverse

/-- Lexicographic comparison of character lists by code point; models
Python's `<=` on strings. -/
def strLeB : List Char → List Char → Bool
  | [], _ => true
  | _ :: _, [] => false
  | a :: as, b :: bs =>
    if a.toNat < b.toNat then true
    else if a.toNat = b.toNat then strLeB as bs
    else false

/-! ### Decimal printing and parsing (the model of `str`/`float`) -/

/-- Little-endian digit characters of `n`, with `fuel` bounding the
recursion depth (structural recursion so that the kernel can evaluate it). -/
def natToCharsAux : ℕ → ℕ → List Char
  | 0, _ => []
  | fuel + 1, n => if n = 0 then [] else Nat.digitChar (n % 10) :: natToCharsAux fuel (n / 10)

/-- Big-endian decimal digit characters of `n` (at least one digit). -/
def natToChars (n : ℕ) : List Char :=
  if n = 0 then ['0'] else (natToCharsAux n n).reverse

/-- Value of a big-endian list of digit characters. -/
def valBE (cs : List Char) : ℕ := Nat.ofDigits 10 ((cs.map digitVal).reverse)

/-- Least `k` with `d ∣ 10 ^ k`, searched up to `d` (which suffices:
if any such `k` exists then `d ∣ 10 ^ d`); `none` when `d` has a prime
factor other than `2` and `5`. -/
def decPow (d : ℕ) : Option ℕ := (List.range (d + 1)).find? (fun k => decide (d ∣ 10 ^ k))

/-- Exact decimal text of a rational, the model of Python's `str` on the
(decimal-valued) floats this program handles; `none` when `q` has no
finite decimal expansion (which cannot arise from a float). -/
def printDecimal (q : ℚ) : Option String :=
  match decPow q.den with
  | none => none
  | some k =>
    let m := q.num.natAbs * 10 ^ k / q.den
    let ds0 := natToChars m
    let ds := List.replicate (k + 1 - ds0.length) '0' ++ ds0
    let ip := ds.take (ds.length - k)
    let fp := ds.drop (ds.length - k)
    some (String.mk ((if q.num < 0 then ['-'] else []) ++ ip ++
      (if k = 0 then [] else '.' :: fp)))

/-- Split a character list at the first `'.'`, if any. -/
def splitDot : List Char → List Char × Option (List Char)
  | [] => ([], none)
  | c :: cs =>
    if c = '.' then ([], some cs)
    else
      let p := splitDot cs
      (c :: p.1, p.2)

/-- Parse unsigned decimal text `digits[.digits]` (at least one digit in
total) to a rational. -/
def parseUnsignedDec (cs : List Char) : Option ℚ :=
  match splitDot cs with
  | (ip, none) =>
    if ip ≠ [] ∧ ip.all isDigitChar then some ((valBE ip : ℕ) : ℚ) else none
  | (ip, some fp) =>
    if (ip ≠ [] ∨ fp ≠ []) ∧ ip.all isDigitChar ∧ fp.all isDigitChar then
      some (((valBE ip : ℕ) : ℚ) + ((valBE fp : ℕ) : ℚ) / (10 : ℚ) ^ fp.length)
    else none

/-- Parse signed decimal text; the model of Python's `float()` on the
plain decimal fragment. -/
def parseDecimal (s : String) : Option ℚ :=
  match s.data with
  | [] => none
  | c :: cs =>
    if c = '+' then parseUnsignedDec cs
    else if c = '-' then (parseUnsignedDec cs).map (fun q => -q)
    else parseUnsignedDec (c :: cs)

/-! ### Dates (`datetime.strptime` / `datetime.date` model) -/

/-- A calendar date as the program manipulates it. -/
structure SimpleDate where
  year : ℕ
  month : ℕ
  day : ℕ
deriving DecidableEq

/-- CPython `_strptime` pattern for `%Y`: exactly four digits. -/
def matchYear4 (cs : List Char) : Option ℕ :=
  if cs.length = 4 ∧ cs.all isDigitChar then some (valBE cs) else none

/-- CPython `_strptime` pattern for `%m`: `1[0-2]|0[1-9]|[1-9]`. -/
def matchMonth : List Char → Option ℕ
  | [c] => if 49 ≤ c.toNat ∧ c.toNat ≤ 57 then some (c.toNat - 48) else none
  | [c0, c1] =>
    if c0.toNat = 49 ∧ 48 ≤ c1.toNat ∧ c1.toNat ≤ 50 then some (10 + (c1.toNat - 48))
    else if c0.toNat = 48 ∧ 49 ≤ c1.toNat ∧ c1.toNat ≤ 57 then some (c1.toNat - 48)
    else none
  | _ => none

/-- CPython `_strptime` pattern for `%d`: `3[01]|[12]\d|0[1-9]|[1-9]| [1-9]`. -/
def matchDay : List Char → Option ℕ
  | [c] => if 49 ≤ c.toNat ∧ c.toNat ≤ 57 then some (c.toNat - 48) else none
  | [c0, c1] =>
    if c0.toNat = 51 ∧ (c1.toNat = 48 ∨ c1.toNat = 49) then some (30 + (c1.toNat - 48))
    else if (c0.toNat = 49 ∨ c0.toNat = 50) ∧ 48 ≤ c1.toNat ∧ c1.toNat ≤ 57 then
      some ((c0.toNat - 48) * 10 + (c1.toNat - 48))
    else if c0.toNat = 48 ∧ 49 ≤ c1.toNat ∧ c1.toNat ≤ 57 then some (c1.toNat - 48)
    else if c0.toNat = 32 ∧ 49 ≤ c1.toNat ∧ c1.toNat ≤ 57 then some (c1.toNat - 48)
    else none
  | _ => none

/-- Gregorian leap-year rule, as in `datetime`. -/
def isLeap (y : ℕ) : Bool := decide ((y % 4 = 0 ∧ ¬ y % 100 = 0) ∨ y % 400 = 0)

/-- Days in a month, as validated by `datetime.date`. -/
def daysInMonth (y m : ℕ) : ℕ :=
  if m = 2 then (if isLeap y then 29 else 28)
  else if m = 4 ∨ m = 6 ∨ m = 9 ∨ m = 11 then 30
  else 31

/-- Split a character list at its first `'-'`, if any. -/
def splitFirstDash : List Char → Option (List Char × List Char)
  | [] => none
  | c :: cs =>
    if c = '-' then some ([], cs)
    else (splitFirstDash cs).map (fun p => (c :: p.1, p.2))

/-- Model of `datetime.strptime(s, '%Y-%m-%d')` followed by
`datetime.date` validation: full-string match of
`\d\d\d\d-(month)-(day)` plus the calendar check (`MINYEAR = 1`). -/
def parseDate (s : String) : Option SimpleDate :=
  match splitFirstDash s.data with
  | none => none
  | some (ycs, rest) =>
    match splitFirstDash rest with
    | none => none
    | some (mcs, dcs) =>
      match matchYear4 ycs, matchMonth mcs, matchDay dcs with
      | some y, some m, some d =>
        if 1 ≤ y ∧ d ≤ daysInMonth y m then some ⟨y, m, d⟩ else none
      | _, _, _ => none

/-- Model of `datetime.strptime(s, '%m-%Y')` (the `track_budget`
specific-month prompt): `(month)-\d\d\d\d` with calendar validation of
the year.  Returns `(year, month)`. -/
def parseMonthYear (s : String) : Option (ℕ × ℕ) :=
  match splitFirstDash s.data with
  | none => none
  | some (mcs, ycs) =>
    match matchMonth mcs, matchYear4 ycs with
    | some m, some y => if 1 ≤ y then some (y, m) else none
    | _, _ => none

/-- Decimal digits of `n` left-padded with `'0'` to width `w`. -/
def padNat (w n : ℕ) : List Char :=
  List.replicate (w - (natToChars n).length) '0' ++ natToChars n

/-- Model of `datetime.strftime('%Y-%m-%d')`. -/
def formatDate (d : SimpleDate) : String :=
  String.mk (padNat 4 d.year ++ '-' :: (padNat 2 d.month ++ '-' :: padNat 2 d.day))

/-- Model of the date prompt of `add_expense` (lines 30–40): the
sentinel `'today'` is recognised case-insensitively and resolves to the
current date; otherwise the text must parse as `%Y-%m-%d`.  The
interactive retry loop is modelled as a single attempt returning
`none` on invalid input. -/
def resolveDateInput (s : String) (now : SimpleDate) : Option String :=
  if pythonLower s = "today" then some (formatDate now)
  else if (parseDate s).isSome then some s else none

/-! ### The data model -/

/-- An in-memory expense record: the Python `dict` with up to four
fields; a missing field is `none`.  The amount has already been
converted to a number (`float`, modelled as `ℚ`). -/
structure Expense where
  date : Option String
  category : Option String
  amount : Option ℚ
  description : Option String
deriving DecidableEq

/-- Whether a record has all four fields
(the `all(key in expense for key in [...])` check of `view_expenses`). -/
def isComplete (r : Expense) : Bool :=
  r.date.isSome && r.category.isSome && r.amount.isSome && r.description.isSome

/-- The mutable state of the tracker: `self.expenses` and `self.budget`. -/
structure LedgerState where
  expenses : List Expense
  budget : Option ℚ
deriving DecidableEq

/-- State after `__init__` before `load_expenses`. -/
def initState : LedgerState := { expenses := [], budget := none }

/-- The file system as the program sees it: the expense storage
(`expenses.csv`, a list of rows) and the budget storage (`budget.txt`,
plain text); `none` means the file does not exist. -/
structure FileSystem where
  expensesFile : Option (List (List String))
  budgetFile : Option String

/-- Header row written by `save_expenses`. -/
def expHeader : List String := ["date", "category", "amount", "description"]

/-- Cell text of an amount, `str(float)` modelled by `printDecimal`. -/
def amountCell (a : ℚ) : String := (printDecimal a).getD ""

/-- Row written for one record by `csv.DictWriter` (missing fields
become the empty-string `restval`). -/
def recToRow (r : Expense) : List String :=
  [r.date.getD "", r.category.getD "", (r.amount.map amountCell).getD "", r.description.getD ""]

/-- Model of `save_expenses` (lines 189–198): header row plus one row
per record, in storage order. -/
def save_expenses (recs : List Expense) : List (List String) :=
  expHeader :: recs.map recToRow

/-- Model of one iteration of the `load_expenses` row loop: build the
record `dict` from a data row (keyed by the standard header) and convert
its `amount` cell with `float()`.  `none` models the exception raised by
`float(...)` on a missing (`None`) or unparseable amount cell, which
aborts the whole loop. -/
def rowToRec (row : List String) : Option Expense :=
  match row[2]? with
  | none => none
  | some t =>
    (parseDecimal t).map (fun a =>
      { date := row[0]?, category := row[1]?, amount := some a,
        description := row[3]? })

/-- Model of the `load_expenses` row loop (lines 208–213): rows are
converted in order and appended to the freshly cleared `self.expenses`;
the first failing row raises, leaving the rows read so far and a `false`
success flag. -/
def load_expense_rows : List (List String) → List Expense × Bool
  | [] => ([], true)
  | row :: rest =>
    match rowToRec row with
    | none => ([], false)
    | some r =>
      let p := load_expense_rows rest
      (r :: p.1, p.2)

/-- Model of the budget read inside `load_expenses` (lines 216–220):
`float(f.read().strip())`, with `FileNotFoundError`/`ValueError`
mapped to an unset budget. -/
def readBudgetFile (f : Option String) : Option ℚ :=
  f.bind (fun t => parseDecimal (String.mk (stripChars t.data)))

/-- Model of `load_expenses` (lines 200–224).  If the expense storage
does not exist the method returns immediately (the budget storage is
never consulted).  Otherwise the rows after the header are converted;
on success `self.budget` is then set from the budget storage, while a
failing row raises into the outer `except`, which reports the error and
leaves the partially filled `self.expenses` and the previous budget. -/
def load_expenses (fs : FileSystem) (st : LedgerState) : LedgerState :=
  match fs.expensesFile with
  | none => st
  | some rows =>
    let p := load_expense_rows (rows.drop 1)
    if p.2 then { expenses := p.1, budget := readBudgetFile fs.budgetFile }
    else { st with expenses := p.1 }

/-- Model of one attempt of `set_budget` (lines 96–110): a value `≤ 0`
is rejected (the loop re-prompts, state unchanged), a positive value
replaces the budget. -/
def set_budget (v : ℚ) (st : LedgerState) : LedgerState :=
  if v ≤ 0 then st else { st with budget := some v }

/-- Model of the final append of `add_expense` (line 68). -/
def add_expense (r : Expense) (st : LedgerState) : LedgerState :=
  { st with expenses := st.expenses ++ [r] }

/-- The invariant claimed for the budget: absent or strictly positive. -/
def BudgetInv (st : LedgerState) : Prop := ∀ b, st.budget = some b → 0 < b

/-! ### Stable sorting (model of Python's `sorted`) -/

/-- Insert `x` before the first element `y` with `le x y`. -/
def insertB (le : α → α → Bool) (x : α) : List α → List α
  | [] => [x]
  | y :: ys => if le x y then x :: y :: ys else y :: insertB le x ys

/-- Stable insertion sort: the model of Python's stable `sorted`.  With
`le x y` the non-strict "key of `x` ≥ key of `y`" test this is exactly
`sorted(key=..., reverse=True)`: an earlier element precedes any later
element with an equal key. -/
def sortB (le : α → α → Bool) : List α → List α
  | [] => []
  | x :: xs => insertB le x (sortB le xs)

/-- Sort key of `view_expenses` (`lambda x: x['date']`); total on records
that have a date. -/
def dateKey (r : Expense) : List Char := (r.date.getD "").data

/-- Comparison used for the date-descending display order. -/
def dateGEb (a b : Expense) : Bool := strLeB (dateKey b) (dateKey a)

/-- Comparison used for the category display order (summed amount
descending; `sorted(categories.items(), key=lambda x: x[1], reverse=True)`). -/
def amtGEb (x y : String × ℚ) : Bool := decide (y.2 ≤ x.2)

/-! ### view_expenses -/

/-- Model of `view_expenses` (lines 71–94).  The empty ledger prints a
notice and returns.  Otherwise the records are sorted by date descending
(`sorted` evaluates the key `x['date']` on every record: a record with
no date raises `KeyError`, modelled as `none`); complete records are
displayed in sorted order and each incomplete record is reported as
skipped.  The result is the displayed sequence together with the number
of skipped records. -/
def view_expenses (recs : List Expense) : Option (List Expense × ℕ) :=
  if recs.isEmpty then some ([], 0)
  else if recs.all (fun r => r.date.isSome) then
    let sortedRecs := sortB dateGEb recs
    some (sortedRecs.filter isComplete,
          (sortedRecs.filter (fun r => ! isComplete r)).length)
  else none

/-! ### track_budget -/

/-- The month filter of `track_budget` (lines 146–156): a record is kept
when its date field is present, truthy (non-empty), parses with
`%Y-%m-%d`, and falls in the selected month; parse failures are skipped
silently. -/
def keepForMonth (y m : ℕ) (r : Expense) : Bool :=
  match r.date with
  | none => false
  | some s =>
    if s = "" then false
    else
      match parseDate s with
      | none => false
      | some d => decide (d.year = y) && decide (d.month = m)

/-- The filtered monthly expense list of `track_budget`. -/
def monthlyFilter (recs : List Expense) (y m : ℕ) : List Expense :=
  recs.filter (keepForMonth y m)

/-- Predicate written from the specification's words for C4: the date
field parses as a valid calendar date with the given year and month
(records with missing or unparseable dates excluded). -/
def specMonthSelect (y m : ℕ) (r : Expense) : Bool :=
  match r.date with
  | none => false
  | some s =>
    match parseDate s with
    | none => false
    | some d => decide (d.year = y) && decide (d.month = m)

/-- Sum of `amount` over the records that have one
(`sum(e['amount'] for e in monthly_expenses if 'amount' in e)`). -/
def sumAmounts (recs : List Expense) : ℚ := (recs.filterMap (fun r => r.amount)).sum

/-- The totals printed by `track_budget` (lines 162–172). -/
structure BudgetSummary where
  totalSpent : ℚ
  remaining : ℚ
  overBudget : Bool
deriving DecidableEq

/-- Model of the totals part of `track_budget` (lines 162–172):
`total_spent`, `remaining = budget - total_spent`, and the over-budget
warning, printed exactly when `remaining < 0`. -/
def track_budget_summary (b : ℚ) (recs : List Expense) (y m : ℕ) : BudgetSummary :=
  let monthly := monthlyFilter recs y m
  let t := sumAmounts monthly
  { totalSpent := t, remaining := b - t, overBudget := decide (b - t < 0) }

/-- Model of `categories[cat] = categories.get(cat, 0) + amount` on an
insertion-ordered dictionary: update in place, append new keys. -/
def upsert : List (String × ℚ) → String → ℚ → List (String × ℚ)
  | [], c, a => [(c, a)]
  | (c0, v) :: rest, c, a =>
    if c0 = c then (c0, v + a) :: rest else (c0, v) :: upsert rest c a

/-- Model of the category accumulation loop of `track_budget`
(lines 176–180) over an accumulator dictionary. -/
def catFoldAux (acc : List (String × ℚ)) : List Expense → List (String × ℚ)
  | [] => acc
  | r :: rest =>
    match r.category, r.amount with
    | some c, some a => catFoldAux (upsert acc c a) rest
    | _, _ => catFoldAux acc rest

/-- The `categories` dictionary of `track_budget`, as an
insertion-ordered association list. -/
def catFold (recs : List Expense) : List (String × ℚ) := catFoldAux [] recs

/-- Model of the category display of `track_budget` (lines 182–187):
entries sorted by summed amount descending, each with its percentage of
the budget (`amount / budget * 100` when the budget is positive, else 0). -/
def track_byCategory (b : ℚ) (recs : List Expense) : List (String × ℚ × ℚ) :=
  (sortB amtGEb (catFold recs)).map
    (fun p => (p.1, p.2, if 0 < b then p.2 / b * 100 else (0 : ℚ)))

/-- Specification-side sum for C5: total `amount` over records having
the given category (and an amount). -/
def catSum (c : String) : List Expense → ℚ
  | [] => 0
  | r :: rest =>
    (match r.category, r.amount with
     | some c2, some a => if c2 = c then a else 0
     | _, _ => 0) + catSum c rest

/-- Specification-side sum for C5: total `amount` over records having
both a category and an amount. -/
def bothSum : List Expense → ℚ
  | [] => 0
  | r :: rest =>
    (match r.category, r.amount with
     | some _, some a => a
     | _, _ => 0) + bothSum rest

/-- First value stored under a key, `0` when absent (the dictionary
read `categories.get(cat, 0)`). -/
def lookupV : List (String × ℚ) → String → ℚ
  | [], _ => 0
  | (c0, v) :: rest, c => if c0 = c then v else lookupV rest c

/-! ### Lemmas: digits and decimal round-trip -/

theorem digitVal_digitChar : ∀ d, d < 10 → digitVal (Nat.digitChar d) = d := by decide

theorem isDigitChar_digitChar : ∀ d, d < 10 → isDigitChar (Nat.digitChar d) = true := by decide

theorem natToCharsAux_val : ∀ fuel n, n ≤ fuel →
    Nat.ofDigits 10 ((natToCharsAux fuel n).map digitVal) = n := by
  intro fuel
  induction fuel with
  | zero =>
    intro n hn
    interval_cases n
    simp [natToCharsAux]
  | succ fuel ih =>
    intro n hn
    by_cases h0 : n = 0
    · subst h0; simp [natToCharsAux]
    · have hlt : n / 10 < n := Nat.div_lt_self (Nat.pos_of_ne_zero h0) (by norm_num)
      rw [natToCharsAux, if_neg h0]
      simp only [List.map_cons, Nat.ofDigits_cons]
      rw [digitVal_digitChar _ (Nat.mod_lt n (by norm_num)), ih (n / 10) (by omega)]
      omega

theorem natToCharsAux_digits : ∀ fuel n c, c ∈ natToCharsAux fuel n → isDigitChar c = true := by
  intro fuel
  induction fuel with
  | zero => intro n c hc; simp [natToCharsAux] at hc
  | succ fuel ih =>
    intro n c hc
    rw [natToCharsAux] at hc
    by_cases h0 : n = 0
    · rw [if_pos h0] at hc; simp at hc
    · rw [if_neg h0] at hc
      rcases List.mem_cons.1 hc with h | h
      · subst h; exact isDigitChar_digitChar _ (Nat.mod_lt n (by norm_num))
      · exact ih _ _ h

theorem natToChars_val (n : ℕ) : valBE (natToChars n) = n := by
  unfold natToChars valBE
  by_cases h0 : n = 0
  · subst h0; decide
  · rw [if_neg h0, List.map_reverse, List.reverse_reverse]
    exact natToCharsAux_val n n le_rfl

theorem natToChars_digits (n : ℕ) : ∀ c ∈ natToChars n, isDigitChar c = true := by
  intro c hc
  unfold natToChars at hc
  by_cases h0 : n = 0
  · rw [if_pos h0] at hc; simp at hc; subst hc; decide
  · rw [if_neg h0, List.mem_reverse] at hc
    exact natToCharsAux_digits n n c hc

theorem natToChars_ne_nil (n : ℕ) : natToChars n ≠ [] := by
  unfold natToChars
  by_cases h0 : n = 0
  · rw [if_pos h0]; simp
  · rw [if_neg h0]
    intro h
    rw [List.reverse_eq_nil_iff] at h
    cases hn : n with
    | zero => exact h0 hn
    | succ m =>
      rw [hn, natToCharsAux, if_neg (by omega : ¬ m + 1 = 0)] at h
      exact List.cons_ne_nil _ _ h

theorem valBE_append (a b : List Char) :
    valBE (a ++ b) = valBE a * 10 ^ b.length + valBE b := by
  unfold valBE
  rw [List.map_append, List.reverse_append, Nat.ofDigits_append]
  simp only [List.length_reverse, List.length_map]
  ring

theorem ofDigits_replicate_zero : ∀ j, Nat.ofDigits 10 (List.replicate j 0) = 0 := by
  intro j
  induction j with
  | zero => simp
  | succ j ih => rw [List.replicate_succ, Nat.ofDigits_cons, ih]

theorem valBE_replicate_zero (j : ℕ) (cs : List Char) :
    valBE (List.replicate j '0' ++ cs) = valBE cs := by
  rw [valBE_append]
  have h0 : valBE (List.replicate j '0') = 0 := by
    unfold valBE
    rw [List.map_replicate, List.reverse_replicate]
    have : digitVal '0' = 0 := by decide
    rw [this, ofDigits_replicate_zero]
  rw [h0, zero_mul, zero_add]

theorem isDigitChar_ne_special (c : Char) (h : isDigitChar c = true) :
    c ≠ '.' ∧ c ≠ '+' ∧ c ≠ '-' := by
  refine ⟨?_, ?_, ?_⟩ <;> rintro rfl <;> revert h <;> decide

theorem splitDot_no_dot : ∀ cs : List Char, (∀ c ∈ cs, c ≠ '.') → splitDot cs = (cs, none) := by
  intro cs
  induction cs with
  | nil => intro _; rfl
  | cons c cs ih =>
    intro h
    rw [splitDot, if_neg (h c (List.mem_cons_self c cs)), ih (fun d hd => h d (List.mem_cons_of_mem c hd))]

theorem splitDot_append (a b : List Char) (ha : ∀ c ∈ a, c ≠ '.') :
    splitDot (a ++ '.' :: b) = (a, some b) := by
  induction a with
  | nil => simp [splitDot]
  | cons c cs ih =>
    rw [List.cons_append, splitDot, if_neg (ha c (List.mem_cons_self c cs)),
      ih (fun d hd => ha d (List.mem_cons_of_mem c hd))]

theorem parseUnsignedDec_nodot (cs ip : List Char) (h : splitDot cs = (ip, none)) :
    parseUnsignedDec cs =
      if ip ≠ [] ∧ ip.all isDigitChar then some ((valBE ip : ℕ) : ℚ) else none := by
  unfold parseUnsignedDec
  rw [h]

theorem parseUnsignedDec_dot (cs ip fp : List Char) (h : splitDot cs = (ip, some fp)) :
    parseUnsignedDec cs =
      if (ip ≠ [] ∨ fp ≠ []) ∧ ip.all isDigitChar ∧ fp.all isDigitChar then
        some (((valBE ip : ℕ) : ℚ) + ((valBE fp : ℕ) : ℚ) / (10 : ℚ) ^ fp.length)
      else none := by
  unfold parseUnsignedDec
  rw [h]

theorem parseUnsignedDec_printed (k : ℕ) (ds : List Char)
    (hd : ∀ c ∈ ds, isDigitChar c = true) (hlen : k + 1 ≤ ds.length) :
    parseUnsignedDec (ds.take (ds.length - k) ++ (if k = 0 then [] else '.' :: ds.drop (ds.length - k)))
      = some ((valBE ds : ℚ) / 10 ^ k) := by
  have hip : ∀ c ∈ ds.take (ds.length - k), isDigitChar c = true :=
    fun c hc => hd c ((List.take_sublist _ _).mem hc)
  have hfp : ∀ c ∈ ds.drop (ds.length - k), isDigitChar c = true :=
    fun c hc => hd c ((List.drop_sublist _ _).mem hc)
  have hipne : ds.take (ds.length - k) ≠ [] := by
    have : (ds.take (ds.length - k)).length = ds.length - k := by
      rw [List.length_take]; omega
    intro hnil
    rw [hnil] at this
    simp at this
    omega
  have hipdots : ∀ c ∈ ds.take (ds.length - k), c ≠ '.' :=
    fun c hc => (isDigitChar_ne_special c (hip c hc)).1
  by_cases hk : k = 0
  · subst hk
    rw [if_pos rfl, List.append_nil, Nat.sub_zero, List.take_length]
    rw [parseUnsignedDec_nodot ds ds
      (splitDot_no_dot ds (fun c hc => (isDigitChar_ne_special c (hd c hc)).1))]
    have hne : ds ≠ [] := by intro h; rw [h] at hlen; simp at hlen
    rw [if_pos ⟨hne, List.all_eq_true.2 hd⟩]
    norm_num
  · rw [if_neg hk, parseUnsignedDec_dot _ _ _ (splitDot_append _ _ hipdots)]
    rw [if_pos ⟨Or.inl hipne, List.all_eq_true.2 hip, List.all_eq_true.2 hfp⟩]
    have hfplen : (ds.drop (ds.length - k)).length = k := by
      rw [List.length_drop]; omega
    have hsplit : valBE ds = valBE (ds.take (ds.length - k)) * 10 ^ k + valBE (ds.drop (ds.length - k)) := by
      conv_lhs => rw [← List.take_append_drop (ds.length - k) ds]
      rw [valBE_append, hfplen]
    rw [hfplen, hsplit]
    have h10 : ((10 : ℚ) ^ k) ≠ 0 := by positivity
    field_simp

theorem parseDecimal_mk (c : Char) (cs : List Char) :
    parseDecimal (String.mk (c :: cs)) =
      if c = '+' then parseUnsignedDec cs
      else if c = '-' then (parseUnsignedDec cs).map (fun q => -q)
      else parseUnsignedDec (c :: cs) := rfl

theorem parseDecimal_printDecimal (q : ℚ) (s : String) (h : printDecimal q = some s) :
    parseDecimal s = some q := by
  unfold printDecimal at h
  cases hdp : decPow q.den with
  | none => rw [hdp] at h; cases h
  | some k =>
    rw [hdp] at h
    simp only [Option.some.injEq] at h
    subst h
    have hk10 : q.den ∣ 10 ^ k := by
      have := List.find?_some hdp
      exact of_decide_eq_true this
    have hm : q.num.natAbs * 10 ^ k / q.den * q.den = q.num.natAbs * 10 ^ k :=
      Nat.div_mul_cancel (hk10.mul_left q.num.natAbs)
    set m := q.num.natAbs * 10 ^ k / q.den with hm_def
    set ds := List.replicate (k + 1 - (natToChars m).length) '0' ++ natToChars m with hds_def
    have hdsdig : ∀ c ∈ ds, isDigitChar c = true := by
      intro c hc
      rcases List.mem_append.1 hc with hc | hc
      · rw [List.eq_of_mem_replicate hc]; decide
      · exact natToChars_digits m c hc
    have hdslen : k + 1 ≤ ds.length := by
      have h1 : 1 ≤ (natToChars m).length :=
        List.length_pos.2 (natToChars_ne_nil m)
      rw [hds_def, List.length_append, List.length_replicate]
      omega
    have hval : valBE ds = m := by
      rw [hds_def, valBE_replicate_zero, natToChars_val]
    have hden : (q.den : ℚ) ≠ 0 := Nat.cast_ne_zero.mpr q.den_nz
    have hqval : ((m : ℚ) / 10 ^ k) = ((q.num.natAbs : ℚ) / (q.den : ℚ)) := by
      rw [div_eq_div_iff (by positivity) hden]
      exact_mod_cast hm
    have hPU := parseUnsignedDec_printed k ds hdsdig hdslen
    rw [hval] at hPU
    by_cases hneg : q.num < 0
    · rw [if_pos hneg]
      rw [List.singleton_append, List.cons_append]
      rw [parseDecimal_mk, if_neg (by decide), if_pos rfl, hPU]
      simp only [Option.map_some']
      congr 1
      have habs : ((q.num.natAbs : ℚ)) = -(q.num : ℚ) := by
        rw [Int.cast_natAbs, abs_of_neg hneg]
        push_cast
        ring
      rw [hqval, habs, neg_div, neg_neg, Rat.num_div_den]
    · rw [if_neg hneg, List.nil_append]
      have hipne : ds.take (ds.length - k) ≠ [] := by
        intro hnil
        have : (ds.take (ds.length - k)).length = ds.length - k := by
          rw [List.length_take]; omega
        rw [hnil] at this
        simp at this
        omega
      cases hip : ds.take (ds.length - k) with
      | nil => exact absurd hip hipne
      | cons c t =>
        have hcmem : c ∈ ds := (List.take_sublist _ _).mem (hip ▸ List.mem_cons_self c t)
        obtain ⟨hcd, hcp, hcm⟩ := isDigitChar_ne_special c (hdsdig c hcmem)
        rw [hip] at hPU
        rw [List.cons_append] at hPU
        rw [List.cons_append, parseDecimal_mk, if_neg hcp, if_neg hcm, hPU, hqval]
        have habs : ((q.num.natAbs : ℚ)) = (q.num : ℚ) := by
          rw [Int.cast_natAbs, abs_of_nonneg (not_lt.1 hneg)]
        rw [habs, Rat.num_div_den]

/-! ### Lemmas: stable insertion sort -/

theorem insertB_perm (le : α → α → Bool) (x : α) (l : List α) :
    List.Perm (insertB le x l) (x :: l) := by
  induction l with
  | nil => exact List.Perm.refl _
  | cons y ys ih =>
    rw [insertB]
    by_cases h : le x y
    · rw [if_pos h]
    · rw [if_neg h]
      exact (ih.cons y).trans (List.Perm.swap x y ys)

theorem sortB_perm (le : α → α → Bool) (l : List α) : List.Perm (sortB le l) l := by
  induction l with
  | nil => exact List.Perm.refl _
  | cons x xs ih =>
    rw [sortB]
    exact (insertB_perm le x (sortB le xs)).trans (ih.cons x)

theorem insertB_all_le (le : α → α → Bool) (x : α) (l : List α)
    (h : ∀ y ∈ l, le x y = true) : insertB le x l = x :: l := by
  cases l with
  | nil => rfl
  | cons y ys => rw [insertB, if_pos (h y (List.mem_cons_self y ys))]

theorem pairwise_insertB (le : α → α → Bool)
    (htrans : ∀ a b c, le a b = true → le b c = true → le a c = true)
    (htotal : ∀ a b, le a b = true ∨ le b a = true)
    (x : α) (l : List α) (hl : l.Pairwise (fun a b => le a b = true)) :
    (insertB le x l).Pairwise (fun a b => le a b = true) := by
  induction l with
  | nil => simp [insertB]
  | cons y ys ih =>
    rcases List.pairwise_cons.1 hl with ⟨hy, hys⟩
    rw [insertB]
    by_cases h : le x y
    · rw [if_pos h]
      refine List.Pairwise.cons ?_ hl
      intro z hz
      rcases List.mem_cons.1 hz with rfl | hz
      · exact h
      · exact htrans x y z h (hy z hz)
    · rw [if_neg h]
      refine List.Pairwise.cons ?_ (ih hys)
      intro z hz
      rcases List.mem_cons.1 ((insertB_perm le x ys).mem_iff.1 hz) with hzx | hz
      · rcases htotal x y with h1 | h1
        · exact absurd h1 h
        · rw [hzx]; exact h1
      · exact hy z hz

theorem sortB_pairwise (le : α → α → Bool)
    (htrans : ∀ a b c, le a b = true → le b c = true → le a c = true)
    (htotal : ∀ a b, le a b = true ∨ le b a = true)
    (l : List α) : (sortB le l).Pairwise (fun a b => le a b = true) := by
  induction l with
  | nil => simp [sortB]
  | cons x xs ih =>
    rw [sortB]
    exact pairwise_insertB le htrans htotal x _ ih

theorem filter_insertB (le : α → α → Bool)
    (htrans : ∀ a b c, le a b = true → le b c = true → le a c = true)
    (p : α → Bool) (x : α) (l : List α)
    (hl : l.Pairwise (fun a b => le a b = true)) :
    (insertB le x l).filter p =
      if p x then insertB le x (l.filter p) else l.filter p := by
  induction l with
  | nil => by_cases hpx : p x <;> simp [insertB, List.filter, hpx]
  | cons y ys ih =>
    rcases List.pairwise_cons.1 hl with ⟨hy, hys⟩
    rw [insertB]
    by_cases hxy : le x y
    · rw [if_pos hxy]
      by_cases hpx : p x
      · rw [List.filter_cons_of_pos hpx, if_pos hpx]
        by_cases hpy : p y
        · rw [List.filter_cons_of_pos hpy, insertB, if_pos hxy]
        · rw [List.filter_cons_of_neg hpy]
          exact (insertB_all_le le x _ (fun z hz =>
            htrans x y z hxy (hy z (List.mem_of_mem_filter hz)))).symm
      · rw [List.filter_cons_of_neg hpx, if_neg hpx]
    · rw [if_neg hxy]
      by_cases hpy : p y
      · rw [List.filter_cons_of_pos hpy, List.filter_cons_of_pos hpy, ih hys]
        by_cases hpx : p x
        · rw [if_pos hpx, if_pos hpx, insertB, if_neg hxy]
        · rw [if_neg hpx, if_neg hpx]
      · rw [List.filter_cons_of_neg hpy, List.filter_cons_of_neg hpy, ih hys]

theorem filter_sortB (le : α → α → Bool)
    (htrans : ∀ a b c, le a b = true → le b c = true → le a c = true)
    (htotal : ∀ a b, le a b = true ∨ le b a = true)
    (p : α → Bool) (l : List α) :
    (sortB le l).filter p = sortB le (l.filter p) := by
  induction l with
  | nil => rfl
  | cons x xs ih =>
    rw [sortB, filter_insertB le htrans p x _ (sortB_pairwise le htrans htotal xs), ih]
    by_cases hpx : p x
    · rw [if_pos hpx, List.filter_cons_of_pos hpx, sortB]
    · rw [if_neg hpx, List.filter_cons_of_neg hpx]

/-! ### Lemmas: the comparison functions are total preorders -/

theorem strLeB_total : ∀ a b : List Char, strLeB a b = true ∨ strLeB b a = true := by
  intro a
  induction a with
  | nil => intro b; exact Or.inl rfl
  | cons x xs ih =>
    intro b
    cases b with
    | nil => exact Or.inr rfl
    | cons y ys =>
      by_cases h1 : x.toNat < y.toNat
      · left; rw [strLeB, if_pos h1]
      · by_cases h2 : x.toNat = y.toNat
        · rcases ih ys with h | h
          · left; rw [strLeB, if_neg h1, if_pos h2]; exact h
          · right; rw [strLeB, if_neg (by omega : ¬ y.toNat < x.toNat), if_pos h2.symm]; exact h
        · right; rw [strLeB, if_pos (by omega : y.toNat < x.toNat)]

theorem strLeB_trans :
    ∀ a b c : List Char, strLeB a b = true → strLeB b c = true → strLeB a c = true := by
  intro a
  induction a with
  | nil => intro b c _ _; rfl
  | cons x xs ih =>
    intro b c hab hbc
    cases b with
    | nil => rw [strLeB] at hab; exact absurd hab (by simp)
    | cons y ys =>
      cases c with
      | nil => rw [strLeB] at hbc; exact absurd hbc (by simp)
      | cons z zs =>
        rw [strLeB] at hab hbc ⊢
        by_cases h1 : x.toNat < y.toNat
        · by_cases h2 : y.toNat < z.toNat
          · rw [if_pos (show x.toNat < z.toNat by omega)]
          · rw [if_neg h2] at hbc
            by_cases h4 : y.toNat = z.toNat
            · rw [if_pos (show x.toNat < z.toNat by omega)]
            · rw [if_neg h4] at hbc; exact absurd hbc (by simp)
        · rw [if_neg h1] at hab
          by_cases h3 : x.toNat = y.toNat
          · rw [if_pos h3] at hab
            by_cases h2 : y.toNat < z.toNat
            · rw [if_pos (show x.toNat < z.toNat by omega)]
            · rw [if_neg h2] at hbc
              by_cases h4 : y.toNat = z.toNat
              · rw [if_pos h4] at hbc
                rw [if_neg (show ¬ x.toNat < z.toNat by omega),
                  if_pos (show x.toNat = z.toNat by omega)]
                exact ih ys zs hab hbc
              · rw [if_neg h4] at hbc; exact absurd hbc (by simp)
          · rw [if_neg h3] at hab; exact absurd hab (by simp)

theorem dateGEb_total : ∀ a b : Expense, dateGEb a b = true ∨ dateGEb b a = true :=
  fun a b => (strLeB_total (dateKey b) (dateKey a)).imp id id

theorem dateGEb_trans :
    ∀ a b c : Expense, dateGEb a b = true → dateGEb b c = true → dateGEb a c = true :=
  fun _ _ _ hab hbc => strLeB_trans _ _ _ hbc hab

theorem amtGEb_total : ∀ x y : String × ℚ, amtGEb x y = true ∨ amtGEb y x = true := by
  intro x y
  unfold amtGEb
  rcases le_total y.2 x.2 with h | h
  · exact Or.inl (decide_eq_true h)
  · exact Or.inr (decide_eq_true h)

theorem amtGEb_trans :
    ∀ x y z : String × ℚ, amtGEb x y = true → amtGEb y z = true → amtGEb x z = true :=
  fun _ _ _ hxy hyz =>
    decide_eq_true (le_trans (of_decide_eq_true hyz) (of_decide_eq_true hxy))

/-! ### Lemmas: the category dictionary -/

theorem lookupV_upsert (l : List (String × ℚ)) (c : String) (a : ℚ) (c2 : String) :
    lookupV (upsert l c a) c2 = lookupV l c2 + (if c = c2 then a else 0) := by
  induction l with
  | nil =>
    by_cases h : c = c2 <;> simp [upsert, lookupV, h]
  | cons p rest ih =>
    obtain ⟨c0, v⟩ := p
    rw [upsert]
    by_cases h : c0 = c
    · subst h
      rw [if_pos rfl, lookupV, lookupV]
      by_cases h2 : c0 = c2
      · rw [if_pos h2, if_pos h2, if_pos h2]
      · rw [if_neg h2, if_neg h2, if_neg h2, add_zero]
    · rw [if_neg h, lookupV, lookupV]
      by_cases h2 : c0 = c2
      · rw [if_pos h2, if_pos h2, if_neg (fun hcc => h (h2.trans hcc.symm)), add_zero]
      · rw [if_neg h2, if_neg h2, ih]

theorem sum_upsert (l : List (String × ℚ)) (c : String) (a : ℚ) :
    ((upsert l c a).map Prod.snd).sum = (l.map Prod.snd).sum + a := by
  induction l with
  | nil => simp [upsert]
  | cons p rest ih =>
    obtain ⟨c0, v⟩ := p
    rw [upsert]
    by_cases h : c0 = c
    · rw [if_pos h]; simp; ring
    · rw [if_neg h]; simp [ih]; ring

theorem mem_keys_upsert (l : List (String × ℚ)) (c : String) (a : ℚ) (c2 : String) :
    c2 ∈ (upsert l c a).map Prod.fst ↔ c2 ∈ l.map Prod.fst ∨ c2 = c := by
  induction l with
  | nil => simp [upsert]
  | cons p rest ih =>
    obtain ⟨c0, v⟩ := p
    rw [upsert]
    by_cases h : c0 = c
    · subst h
      rw [if_pos rfl]
      simp only [List.map_cons, List.mem_cons]
      constructor
      · exact Or.inl
      · rintro (h2 | h2)
        · exact h2
        · exact Or.inl h2
    · rw [if_neg h]
      simp only [List.map_cons, List.mem_cons, ih]
      tauto

theorem nodup_keys_upsert (l : List (String × ℚ)) (c : String) (a : ℚ)
    (hl : (l.map Prod.fst).Nodup) : ((upsert l c a).map Prod.fst).Nodup := by
  induction l with
  | nil => simp [upsert]
  | cons p rest ih =>
    obtain ⟨c0, v⟩ := p
    simp only [List.map_cons, List.nodup_cons] at hl
    rw [upsert]
    by_cases h : c0 = c
    · rw [if_pos h]
      simp only [List.map_cons, List.nodup_cons]
      exact hl
    · rw [if_neg h]
      simp only [List.map_cons, List.nodup_cons]
      refine ⟨?_, ih hl.2⟩
      rw [mem_keys_upsert]
      rintro (h2 | h2)
      · exact hl.1 h2
      · exact h h2

theorem lookupV_of_mem_nodup (l : List (String × ℚ)) (c : String) (v : ℚ)
    (hnd : (l.map Prod.fst).Nodup) (hmem : (c, v) ∈ l) : lookupV l c = v := by
  induction l with
  | nil => simp at hmem
  | cons p rest ih =>
    obtain ⟨c0, v0⟩ := p
    simp only [List.map_cons, List.nodup_cons] at hnd
    rcases List.mem_cons.1 hmem with h | h
    · cases h
      simp [lookupV]
    · have hc : c ∈ rest.map Prod.fst := List.mem_map.2 ⟨(c, v), h, rfl⟩
      have hne : c0 ≠ c := fun h0 => hnd.1 (h0 ▸ hc)
      rw [lookupV, if_neg hne]
      exact ih hnd.2 h

theorem lookupV_catFoldAux :
    ∀ (recs : List Expense) (acc : List (String × ℚ)) (c : String),
      lookupV (catFoldAux acc recs) c = lookupV acc c + catSum c recs := by
  intro recs
  induction recs with
  | nil => intro acc c; simp [catFoldAux, catSum]
  | cons r rest ih =>
    intro acc c
    rw [catFoldAux, catSum]
    cases hrc : r.category with
    | none => rw [ih]; ring_nf
    | some c2 =>
      cases hra : r.amount with
      | none => rw [ih]; ring_nf
      | some a =>
        rw [ih (upsert acc c2 a) c, lookupV_upsert]
        ring

theorem sum_catFoldAux :
    ∀ (recs : List Expense) (acc : List (String × ℚ)),
      ((catFoldAux acc recs).map Prod.snd).sum = (acc.map Prod.snd).sum + bothSum recs := by
  intro recs
  induction recs with
  | nil => intro acc; simp [catFoldAux, bothSum]
  | cons r rest ih =>
    intro acc
    rw [catFoldAux, bothSum]
    cases hrc : r.category with
    | none => rw [ih]; ring_nf
    | some c2 =>
      cases hra : r.amount with
      | none => rw [ih]; ring_nf
      | some a =>
        rw [ih (upsert acc c2 a), sum_upsert]
        ring

theorem mem_keys_catFoldAux_mono :
    ∀ (recs : List Expense) (acc : List (String × ℚ)) (c : String),
      c ∈ acc.map Prod.fst → c ∈ (catFoldAux acc recs).map Prod.fst := by
  intro recs
  induction recs with
  | nil => intro acc c h; exact h
  | cons r rest ih =>
    intro acc c h
    rw [catFoldAux]
    cases hrc : r.category with
    | none => exact ih acc c h
    | some c2 =>
      cases hra : r.amount with
      | none => exact ih acc c h
      | some a => exact ih _ c ((mem_keys_upsert acc c2 a c).2 (Or.inl h))

theorem mem_keys_catFoldAux :
    ∀ (recs : List Expense) (acc : List (String × ℚ)) (r : Expense) (c : String),
      r ∈ recs → r.category = some c → r.amount.isSome →
        c ∈ (catFoldAux acc recs).map Prod.fst := by
  intro recs
  induction recs with
  | nil => intro acc r c h; simp at h
  | cons r0 rest ih =>
    intro acc r c hmem hc ha
    rw [catFoldAux]
    rcases List.mem_cons.1 hmem with h | h
    · subst h
      rw [hc]
      cases hra : r.amount with
      | none => rw [hra] at ha; simp at ha
      | some a =>
        exact mem_keys_catFoldAux_mono rest _ c ((mem_keys_upsert acc c a c).2 (Or.inr rfl))
    · cases hrc : r0.category with
      | none => exact ih acc r c h hc ha
      | some c2 =>
        cases hra : r0.amount with
        | none => exact ih acc r c h hc ha
        | some a => exact ih _ r c h hc ha

theorem nodup_keys_catFoldAux :
    ∀ (recs : List Expense) (acc : List (String × ℚ)),
      (acc.map Prod.fst).Nodup → ((catFoldAux acc recs).map Prod.fst).Nodup := by
  intro recs
  induction recs with
  | nil => intro acc h; exact h
  | cons r rest ih =>
    intro acc h
    rw [catFoldAux]
    cases hrc : r.category with
    | none => exact ih acc h
    | some c2 =>
      cases hra : r.amount with
      | none => exact ih acc h
      | some a => exact ih _ (nodup_keys_upsert acc c2 a h)

theorem lookupV_catFold (recs : List Expense) (c : String) :
    lookupV (catFold recs) c = catSum c recs := by
  rw [catFold, lookupV_catFoldAux]
  simp [lookupV]

theorem sum_catFold (recs : List Expense) :
    ((catFold recs).map Prod.snd).sum = bothSum recs := by
  rw [catFold, sum_catFoldAux]
  simp

theorem nodup_keys_catFold (recs : List Expense) : ((catFold recs).map Prod.fst).Nodup :=
  nodup_keys_catFoldAux recs [] (by simp)

theorem mem_catFold_val (recs : List Expense) (c : String) (v : ℚ)
    (h : (c, v) ∈ catFold recs) : v = catSum c recs := by
  rw [← lookupV_catFold recs c]
  exact (lookupV_of_mem_nodup _ c v (nodup_keys_catFold recs) h).symm

/-! ### Lemmas: month-year parsing soundness and row round-trip -/

theorem digitVal_lt_ten (c : Char) (h : isDigitChar c = true) : digitVal c < 10 := by
  unfold isDigitChar at h
  simp only [Bool.and_eq_true, decide_eq_true_eq] at h
  unfold digitVal
  omega

theorem ofDigits_lt_pow :
    ∀ L : List ℕ, (∀ d ∈ L, d < 10) → Nat.ofDigits 10 L < 10 ^ L.length := by
  intro L
  induction L with
  | nil => intro _; simp
  | cons d L ih =>
    intro h
    rw [Nat.ofDigits_cons, List.length_cons, pow_succ]
    have h1 : d < 10 := h d (List.mem_cons_self d L)
    have h2 : Nat.ofDigits 10 L < 10 ^ L.length :=
      ih (fun x hx => h x (List.mem_cons_of_mem d hx))
    have h3 : (Nat.ofDigits 10 L : ℕ) ≤ 10 ^ L.length - 1 := by omega
    calc d + 10 * Nat.ofDigits 10 L ≤ 9 + 10 * (10 ^ L.length - 1) := by omega
      _ < 10 ^ L.length * 10 := by
          have : 1 ≤ 10 ^ L.length := Nat.one_le_pow _ _ (by norm_num)
          omega

theorem valBE_lt_pow (cs : List Char) (h : cs.all isDigitChar = true) :
    valBE cs < 10 ^ cs.length := by
  unfold valBE
  have hlen : ((cs.map digitVal).reverse).length = cs.length := by simp
  rw [← hlen]
  apply ofDigits_lt_pow
  intro d hd
  rw [List.mem_reverse] at hd
  obtain ⟨c, hc, hdc⟩ := List.mem_map.1 hd
  exact hdc ▸ digitVal_lt_ten c (List.all_eq_true.1 h c hc)

theorem splitFirstDash_eq :
    ∀ cs a b : List Char, splitFirstDash cs = some (a, b) → cs = a ++ '-' :: b := by
  intro cs
  induction cs with
  | nil => intro a b h; simp [splitFirstDash] at h
  | cons c rest ih =>
    intro a b h
    rw [splitFirstDash] at h
    by_cases hc : c = '-'
    · rw [if_pos hc] at h
      simp only [Option.some.injEq, Prod.mk.injEq] at h
      rw [← h.1, ← h.2, hc]
      rfl
    · rw [if_neg hc] at h
      cases hsp : splitFirstDash rest with
      | none => rw [hsp] at h; simp at h
      | some p =>
        rw [hsp] at h
        simp only [Option.map_some', Option.some.injEq, Prod.mk.injEq] at h
        rw [← h.1, ← h.2]
        rw [List.cons_append]
        rw [← ih p.1 p.2 (by rw [hsp])]

theorem matchMonth_sound (mcs : List Char) (m : ℕ) (h : matchMonth mcs = some m) :
    (mcs.length = 1 ∨ mcs.length = 2) ∧ 1 ≤ m ∧ m ≤ 12 := by
  cases mcs with
  | nil => simp [matchMonth] at h
  | cons c0 rest =>
    cases rest with
    | nil =>
      simp only [matchMonth] at h
      split_ifs at h with h1
      simp only [Option.some.injEq] at h
      exact ⟨Or.inl rfl, by omega, by omega⟩
    | cons c1 rest2 =>
      cases rest2 with
      | nil =>
        simp only [matchMonth] at h
        split_ifs at h with h1 h2
        · simp only [Option.some.injEq] at h
          exact ⟨Or.inr rfl, by omega, by omega⟩
        · simp only [Option.some.injEq] at h
          exact ⟨Or.inr rfl, by omega, by omega⟩
      | cons _ _ => simp [matchMonth] at h

theorem matchYear4_sound (ycs : List Char) (y : ℕ) (h : matchYear4 ycs = some y) :
    ycs.length = 4 ∧ ycs.all isDigitChar = true ∧ y ≤ 9999 := by
  unfold matchYear4 at h
  split_ifs at h with h1
  simp only [Option.some.injEq] at h
  refine ⟨h1.1, h1.2, ?_⟩
  have := valBE_lt_pow ycs h1.2
  rw [h1.1] at this
  omega

theorem rowToRec_recToRow (r : Expense) (d c desc : String) (a : ℚ) (s : String)
    (hd : r.date = some d) (hc : r.category = some c) (ha : r.amount = some a)
    (hdesc : r.description = some desc) (hs : printDecimal a = some s) :
    rowToRec (recToRow r) = some r := by
  unfold recToRow amountCell
  rw [hd, hc, ha, hdesc]
  simp only [Option.map_some', Option.getD_some]
  rw [hs]
  simp only [Option.getD_some]
  unfold rowToRec
  simp only [List.getElem?_cons_succ, List.getElem?_cons_zero]
  rw [parseDecimal_printDecimal a s hs]
  simp only [Option.map_some', Option.some.injEq]
  rw [← hd, ← hc, ← ha, ← hdesc]

/-! ### Claim theorems -/

/-- C1: for every budget `b` and every record set whose month-filtered
records' amounts sum to `s`, `track_budget` computes `totalSpent = s`,
`remaining = b - s` (which may be negative), and prints the over-budget
warning exactly when `s > b`. -/
theorem C1_track_budget_totals (b : ℚ) (recs : List Expense) (y m : ℕ) (s : ℚ)
    (h : sumAmounts (monthlyFilter recs y m) = s) :
    (track_budget_summary b recs y m).totalSpent = s ∧
    (track_budget_summary b recs y m).remaining = b - s ∧
    ((track_budget_summary b recs y m).overBudget = true ↔ s > b) := by
  subst h
  refine ⟨rfl, rfl, ?_⟩
  simp [track_budget_summary, sub_neg, gt_iff_lt]

/-- Witness for C1 at the spec's example scenario with budget 40:
the amounts of August 2025 sum to 52.50, and the summary equations hold
there (remaining is negative and the warning fires). -/
theorem C1_witness :
    sumAmounts (monthlyFilter
      [⟨some "2025-08-01", some "Food", some ((85 : ℚ)/2), some "lunch"⟩,
       ⟨some "2025-08-15", some "Transport", some (10 : ℚ), some "bus"⟩] 2025 8) = 105/2 ∧
    ((track_budget_summary 40
      [⟨some "2025-08-01", some "Food", some ((85 : ℚ)/2), some "lunch"⟩,
       ⟨some "2025-08-15", some "Transport", some (10 : ℚ), some "bus"⟩] 2025 8).totalSpent = 105/2 ∧
     (track_budget_summary 40
      [⟨some "2025-08-01", some "Food", some ((85 : ℚ)/2), some "lunch"⟩,
       ⟨some "2025-08-15", some "Transport", some (10 : ℚ), some "bus"⟩] 2025 8).remaining = 40 - 105/2 ∧
     ((track_budget_summary 40
      [⟨some "2025-08-01", some "Food", some ((85 : ℚ)/2), some "lunch"⟩,
       ⟨some "2025-08-15", some "Transport", some (10 : ℚ), some "bus"⟩] 2025 8).overBudget = true ↔
        (105/2 : ℚ) > 40)) :=
  ⟨by decide,
   C1_track_budget_totals 40
     [⟨some "2025-08-01", some "Food", some ((85 : ℚ)/2), some "lunch"⟩,
      ⟨some "2025-08-15", some "Transport", some (10 : ℚ), some "bus"⟩] 2025 8 (105/2) (by decide)⟩

/-- C4: the month filter of `track_budget` selects exactly the records
whose date field parses as a valid calendar date with the selected year
and month; records with a missing, empty, or unparseable date are
silently excluded (the empty-string truthiness check of the source is
subsumed by the parse, since the empty string never parses). -/
theorem C4_month_filter (recs : List Expense) (y m : ℕ) :
    monthlyFilter recs y m = recs.filter (specMonthSelect y m) := by
  unfold monthlyFilter
  apply List.filter_congr
  intro r _
  unfold keepForMonth specMonthSelect
  cases r.date with
  | none => rfl
  | some s =>
    by_cases hs : s = ""
    · subst hs
      rfl
    · dsimp only
      rw [if_neg hs]

/-- C10: the date prompt of `add_expense` accepts the sentinel `today`
case-insensitively — any text that lower-cases to `today` resolves to
the current date formatted as `YYYY-MM-DD`. -/
theorem C10_today_case_insensitive (s : String) (now : SimpleDate)
    (h : pythonLower s = "today") :
    resolveDateInput s now = some (formatDate now) := by
  unfold resolveDateInput
  rw [if_pos h]

/-- Witness for C10: the all-caps spelling `TODAY` on 2025-08-20
resolves to `2025-08-20`. -/
theorem C10_witness :
    pythonLower "TODAY" = "today" ∧
    resolveDateInput "TODAY" ⟨2025, 8, 20⟩ = some (formatDate ⟨2025, 8, 20⟩) ∧
    formatDate ⟨2025, 8, 20⟩ = "2025-08-20" :=
  ⟨by decide, C10_today_case_insensitive "TODAY" ⟨2025, 8, 20⟩ (by decide), by decide⟩

/-- C2: saving a record set in which every record has all four fields
(and, as floats always do, every amount prints as decimal text) and
reloading it yields exactly the same records — equal field tuples, same
count, storage order preserved. -/
theorem C2_save_load_roundtrip (recs : List Expense) (bf : Option String) (st : LedgerState)
    (h : ∀ r ∈ recs, isComplete r = true ∧
        ∀ a, r.amount = some a → (printDecimal a).isSome = true) :
    (load_expenses ⟨some (save_expenses recs), bf⟩ st).expenses = recs := by
  have key : ∀ rs : List Expense,
      (∀ r ∈ rs, isComplete r = true ∧
        ∀ a, r.amount = some a → (printDecimal a).isSome = true) →
      load_expense_rows (rs.map recToRow) = (rs, true) := by
    intro rs
    induction rs with
    | nil => intro _; rfl
    | cons r rest ih =>
      intro hall
      obtain ⟨hc, hp⟩ := hall r (List.mem_cons_self r rest)
      unfold isComplete at hc
      simp only [Bool.and_eq_true, Option.isSome_iff_exists] at hc
      obtain ⟨⟨⟨⟨d, hd⟩, cc, hcc⟩, a, ha⟩, de, hde⟩ := hc
      obtain ⟨s, hs⟩ := Option.isSome_iff_exists.1 (hp a ha)
      rw [List.map_cons, load_expense_rows,
        rowToRec_recToRow r d cc de a s hd hcc ha hde hs,
        ih (fun r2 h2 => hall r2 (List.mem_cons_of_mem _ h2))]
  unfold load_expenses save_expenses
  simp only [List.drop_succ_cons, List.drop_zero]
  rw [key recs h]
  simp

/-- Witness for C2: a two-record ledger with all fields present
round-trips through the CSV model unchanged. -/
theorem C2_witness :
    (∀ r ∈ [(⟨some "2025-08-01", some "Food", some ((85 : ℚ)/2), some "lunch"⟩ : Expense),
            ⟨some "2025-08-15", some "Transport", some (10 : ℚ), some "bus"⟩],
        isComplete r = true ∧
        ∀ a, r.amount = some a → (printDecimal a).isSome = true) ∧
    (load_expenses
      ⟨some (save_expenses
        [⟨some "2025-08-01", some "Food", some ((85 : ℚ)/2), some "lunch"⟩,
         ⟨some "2025-08-15", some "Transport", some (10 : ℚ), some "bus"⟩]), none⟩
      initState).expenses =
      [⟨some "2025-08-01", some "Food", some ((85 : ℚ)/2), some "lunch"⟩,
       ⟨some "2025-08-15", some "Transport", some (10 : ℚ), some "bus"⟩] :=
  ⟨by decide,
   C2_save_load_roundtrip
     [⟨some "2025-08-01", some "Food", some ((85 : ℚ)/2), some "lunch"⟩,
      ⟨some "2025-08-15", some "Transport", some (10 : ℚ), some "bus"⟩] none initState
     (by decide)⟩

/-- Counterexample for C3: a record whose `date` field is missing does
not get skipped with a count — the sort key `x['date']` raises, so
`view_expenses` fails (`none`) instead of returning a sequence. -/
theorem C3_counterexample :
    isComplete ⟨none, some "Food", some (5 : ℚ), some "x"⟩ = false ∧
    view_expenses [⟨none, some "Food", some (5 : ℚ), some "x"⟩] = none := by
  exact ⟨by decide, by decide⟩

/-- C3 amended: for record sets in which every record has a `date`
field, `view_expenses` returns exactly the records having all four
fields, sorted by date descending with ties keeping insertion order
(the stable sort of the filtered records), and reports the number of
incomplete records as skipped; a record without a date instead makes
the sort key raise. -/
theorem C3_view_expenses_amended (recs : List Expense)
    (hd : ∀ r ∈ recs, r.date.isSome = true) :
    view_expenses recs =
      some (sortB dateGEb (recs.filter isComplete),
            (recs.filter (fun r => ! isComplete r)).length) ∧
    (sortB dateGEb (recs.filter isComplete)).Pairwise (fun a b => dateGEb a b = true) := by
  constructor
  · unfold view_expenses
    by_cases hemp : recs.isEmpty
    · rw [if_pos hemp]
      have hnil : recs = [] := List.isEmpty_iff.1 hemp
      subst hnil
      rfl
    · rw [if_neg hemp, if_pos (List.all_eq_true.2 hd)]
      have h1 : (sortB dateGEb recs).filter isComplete =
          sortB dateGEb (recs.filter isComplete) :=
        filter_sortB dateGEb dateGEb_trans dateGEb_total isComplete recs
      have h2 : ((sortB dateGEb recs).filter (fun r => ! isComplete r)).length =
          (recs.filter (fun r => ! isComplete r)).length :=
        ((sortB_perm dateGEb recs).filter _).length_eq
      simp only [h1, h2]
  · exact sortB_pairwise dateGEb dateGEb_trans dateGEb_total _

/-- Witness for C3 at a three-record set (one record incomplete, two
complete with out-of-order dates): the view shows the complete records
sorted and reports one skipped record. -/
theorem C3_witness :
    (∀ r ∈ [(⟨some "2025-08-15", some "Transport", some (10 : ℚ), some "bus"⟩ : Expense),
            ⟨some "2025-08-20", none, some (7 : ℚ), some "y"⟩,
            ⟨some "2025-08-01", some "Food", some ((85 : ℚ)/2), some "lunch"⟩],
        r.date.isSome = true) ∧
    view_expenses
      [⟨some "2025-08-15", some "Transport", some (10 : ℚ), some "bus"⟩,
       ⟨some "2025-08-20", none, some (7 : ℚ), some "y"⟩,
       ⟨some "2025-08-01", some "Food", some ((85 : ℚ)/2), some "lunch"⟩] =
      some (sortB dateGEb
        ([⟨some "2025-08-15", some "Transport", some (10 : ℚ), some "bus"⟩,
          ⟨some "2025-08-20", none, some (7 : ℚ), some "y"⟩,
          ⟨some "2025-08-01", some "Food", some ((85 : ℚ)/2), some "lunch"⟩].filter isComplete),
        ([⟨some "2025-08-15", some "Transport", some (10 : ℚ), some "bus"⟩,
          ⟨some "2025-08-20", none, some (7 : ℚ), some "y"⟩,
          ⟨some "2025-08-01", some "Food", some ((85 : ℚ)/2), some "lunch"⟩].filter
            (fun r => ! isComplete r)).length) :=
  ⟨by decide,
   (C3_view_expenses_amended
     [⟨some "2025-08-15", some "Transport", some (10 : ℚ), some "bus"⟩,
      ⟨some "2025-08-20", none, some (7 : ℚ), some "y"⟩,
      ⟨some "2025-08-01", some "Food", some ((85 : ℚ)/2), some "lunch"⟩] (by decide)).1⟩

/-- C5: in the category display of `track_budget`, every listed entry
carries the sum of `amount` over the filtered records with that
category (and an amount) and the percentage `amount / budget * 100`
when the budget is positive (else 0); every category that occurs with
an amount is listed; the entries are ordered by summed amount
descending; and the listed amounts sum to the total spent over records
having both `category` and `amount`. -/
theorem C5_byCategory (b : ℚ) (recs : List Expense) :
    (∀ c v p, (c, v, p) ∈ track_byCategory b recs →
        v = catSum c recs ∧ p = (if 0 < b then v / b * 100 else 0)) ∧
    (∀ r ∈ recs, ∀ c, r.category = some c → r.amount.isSome = true →
        ∃ v p, (c, v, p) ∈ track_byCategory b recs) ∧
    (track_byCategory b recs).Pairwise (fun x y => y.2.1 ≤ x.2.1) ∧
    ((track_byCategory b recs).map (fun x => x.2.1)).sum = bothSum recs := by
  refine ⟨?_, ?_, ?_, ?_⟩
  · intro c v p hmem
    unfold track_byCategory at hmem
    obtain ⟨⟨c1, v1⟩, hmem1, heq⟩ := List.mem_map.1 hmem
    simp only [Prod.mk.injEq] at heq
    obtain ⟨hc1, hv1, hp1⟩ := heq
    rw [hc1, hv1] at hmem1
    have hmem2 : (c, v) ∈ catFold recs :=
      (sortB_perm amtGEb (catFold recs)).mem_iff.1 hmem1
    rw [hv1] at hp1
    exact ⟨mem_catFold_val recs c v hmem2, hp1.symm⟩
  · intro r hr c hc ha
    have hkey : c ∈ (catFold recs).map Prod.fst :=
      mem_keys_catFoldAux recs [] r c hr hc ha
    obtain ⟨⟨c1, v⟩, hmem, hfst⟩ := List.mem_map.1 hkey
    have hc1 : c1 = c := hfst
    subst hc1
    have hmem2 : (c1, v) ∈ sortB amtGEb (catFold recs) :=
      (sortB_perm amtGEb (catFold recs)).mem_iff.2 hmem
    exact ⟨v, _, List.mem_map.2 ⟨(c1, v), hmem2, rfl⟩⟩
  · unfold track_byCategory
    refine (List.pairwise_map).2 ?_
    exact (sortB_pairwise amtGEb amtGEb_trans amtGEb_total (catFold recs)).imp
      (fun h => of_decide_eq_true h)
  · unfold track_byCategory
    rw [List.map_map]
    have hcomp : ((fun x : String × ℚ × ℚ => x.2.1) ∘
        (fun p : String × ℚ => (p.1, p.2, if 0 < b then p.2 / b * 100 else (0 : ℚ)))) =
        Prod.snd := rfl
    rw [hcomp, ((sortB_perm amtGEb (catFold recs)).map Prod.snd).sum_eq, sum_catFold]

/-- Witness for C5: the category `Food` occurs with an amount in a
one-record ledger, so it is listed in the category display. -/
theorem C5_witness :
    ∃ v p, ("Food", v, p) ∈
      track_byCategory 100 [⟨some "2025-08-01", some "Food", some ((85 : ℚ)/2), some "lunch"⟩] :=
  (C5_byCategory 100 [⟨some "2025-08-01", some "Food", some ((85 : ℚ)/2), some "lunch"⟩]).2.1
    ⟨some "2025-08-01", some "Food", some ((85 : ℚ)/2), some "lunch"⟩
    (by decide) "Food" (by decide) (by decide)

/-- Unfolding lemma for `load_expenses` when the expense storage is absent. -/
theorem load_expenses_none (fs : FileSystem) (st : LedgerState)
    (hfs : fs.expensesFile = none) : load_expenses fs st = st := by
  unfold load_expenses
  rw [hfs]

/-- Unfolding lemma for `load_expenses` when the expense storage holds `rows`. -/
theorem load_expenses_some (fs : FileSystem) (st : LedgerState) (rows : List (List String))
    (hfs : fs.expensesFile = some rows) :
    load_expenses fs st =
      if (load_expense_rows (rows.drop 1)).2 then
        { expenses := (load_expense_rows (rows.drop 1)).1,
          budget := readBudgetFile fs.budgetFile }
      else { expenses := (load_expense_rows (rows.drop 1)).1, budget := st.budget } := by
  unfold load_expenses
  rw [hfs]

/-- Unfolding lemma for `parseMonthYear` once the input splits at its
first dash. -/
theorem parseMonthYear_eq (s : String) (mcs ycs : List Char)
    (hsp : splitFirstDash s.data = some (mcs, ycs)) :
    parseMonthYear s =
      match matchMonth mcs, matchYear4 ycs with
      | some m, some y => if 1 ≤ y then some (y, m) else none
      | _, _ => none := by
  unfold parseMonthYear
  rw [hsp]

/-- Counterexample for C6: the budget storage exists and parses
(`"100"`), yet after `load_expenses` the budget is unset, because the
expense storage is absent and the method returns before ever reading
the budget storage. -/
theorem C6_counterexample :
    parseDecimal (String.mk (stripChars "100".data)) = some 100 ∧
    (load_expenses ⟨none, some "100"⟩ initState).budget = none := by
  exact ⟨by decide, by decide⟩

/-- C6 amended: the budget storage is read only when the expense
storage exists and all of its rows load; in that case the budget is set
from the stripped decimal text of the budget storage (unset when absent
or unparseable); when the expense storage is absent, or a row fails to
load, the budget is left as it was. -/
theorem C6_load_budget_amended (fs : FileSystem) (st : LedgerState) :
    (fs.expensesFile = none → (load_expenses fs st).budget = st.budget) ∧
    (∀ rows, fs.expensesFile = some rows →
      (load_expenses fs st).budget =
        if (load_expense_rows (rows.drop 1)).2 then readBudgetFile fs.budgetFile
        else st.budget) := by
  constructor
  · intro hfs
    rw [load_expenses_none fs st hfs]
  · intro rows hfs
    rw [load_expenses_some fs st rows hfs, List.drop_one]
    by_cases hok : (load_expense_rows rows.tail).2 = true <;> simp [hok]

/-- Witness for C6: with the expense storage holding just the header
row and the budget storage holding `"100"`, the loaded budget follows
the amended rule. -/
theorem C6_witness :
    (load_expenses ⟨some [expHeader], some "100"⟩ initState).budget =
      if (load_expense_rows ([expHeader].drop 1)).2 then readBudgetFile (some "100")
      else initState.budget :=
  (C6_load_budget_amended ⟨some [expHeader], some "100"⟩ initState).2 [expHeader] rfl

/-- Counterexample for C7: a stored record set whose second row has the
unparseable amount `"abc"` does not make the load deliver nothing — the
row before it stays in the loaded ledger (while the load as a whole is
reported as an error and the remaining rows are lost). -/
theorem C7_counterexample :
    parseDecimal "abc" = none ∧
    (load_expense_rows [["2025-01-01", "Food", "10", "x"],
       ["2025-01-02", "Bus", "abc", "y"]]).2 = false ∧
    (load_expenses ⟨some [expHeader,
        ["2025-01-01", "Food", "10", "x"],
        ["2025-01-02", "Bus", "abc", "y"]], none⟩ initState).expenses =
      [⟨some "2025-01-01", some "Food", some 10, some "x"⟩] := by
  exact ⟨by decide, by decide, by decide⟩

/-- C7 amended: a row whose amount cell fails `float()` is fatal to the
rest of the load: the rows before it remain as the loaded expenses, the
failing row and everything after it are dropped, and the load reports
failure rather than success. -/
theorem C7_load_fatal_amended (pre post : List (List String)) (row : List String)
    (hrow : rowToRec row = none)
    (hpre : ∀ r ∈ pre, (rowToRec r).isSome = true) :
    load_expense_rows (pre ++ row :: post) = (pre.filterMap rowToRec, false) := by
  induction pre with
  | nil =>
    rw [List.nil_append, load_expense_rows, hrow]
    rfl
  | cons r0 rest ih =>
    obtain ⟨r, hr⟩ := Option.isSome_iff_exists.1 (hpre r0 (List.mem_cons_self r0 rest))
    rw [List.cons_append, load_expense_rows, hr,
      ih (fun r2 h2 => hpre r2 (List.mem_cons_of_mem _ h2))]
    simp [List.filterMap_cons, hr]

/-- Witness for C7: the two-row instance of the amended statement — one
good row before a bad row loads to exactly that one record with the
failure flag. -/
theorem C7_witness :
    load_expense_rows ([["2025-01-01", "Food", "10", "x"]] ++
        ["2025-01-02", "Bus", "abc", "y"] :: []) =
      ([["2025-01-01", "Food", "10", "x"]].filterMap rowToRec, false) :=
  C7_load_fatal_amended [["2025-01-01", "Food", "10", "x"]] []
    ["2025-01-02", "Bus", "abc", "y"] (by decide) (by decide)

/-- Counterexample for C8: `strptime('%m-%Y')` accepts a one-digit
month, so `"8-2025"` parses to August 2025 instead of failing on a
non-two-digit month. -/
theorem C8_counterexample : parseMonthYear "8-2025" = some (2025, 8) := by decide

/-- C8 amended: the specific-month prompt parses `MM-YYYY` where the
month is one or two digits with value 1–12 (a single digit is accepted)
and the year is exactly four digits with value at least 1; every
successful parse decomposes this way, so longer months, months outside
1–12 and years that are not four digits fail (and re-prompt at the
interactive boundary). -/
theorem C8_parseMonthYear_amended (s : String) (y m : ℕ)
    (h : parseMonthYear s = some (y, m)) :
    ∃ mcs ycs : List Char, s.data = mcs ++ '-' :: ycs ∧
      matchMonth mcs = some m ∧ (mcs.length = 1 ∨ mcs.length = 2) ∧
      1 ≤ m ∧ m ≤ 12 ∧
      matchYear4 ycs = some y ∧ ycs.length = 4 ∧ ycs.all isDigitChar = true ∧
      1 ≤ y ∧ y ≤ 9999 := by
  cases hsp : splitFirstDash s.data with
  | none =>
    unfold parseMonthYear at h
    rw [hsp] at h
    cases h
  | some p =>
    obtain ⟨mcs, ycs⟩ := p
    unfold parseMonthYear at h
    simp only [hsp] at h
    cases hm2 : matchMonth mcs with
    | none => simp only [hm2] at h; cases h
    | some m2 =>
      cases hy2 : matchYear4 ycs with
      | none => simp only [hm2, hy2] at h; cases h
      | some y2 =>
        simp only [hm2, hy2] at h
        by_cases hy1 : 1 ≤ y2
        · rw [if_pos hy1] at h
          simp only [Option.some.injEq, Prod.mk.injEq] at h
          obtain ⟨hyy, hmm⟩ := h
          obtain ⟨hlm, hm1, hm12⟩ := matchMonth_sound mcs m2 hm2
          obtain ⟨hly, hdy, hy9⟩ := matchYear4_sound ycs y2 hy2
          exact ⟨mcs, ycs, splitFirstDash_eq s.data mcs ycs hsp,
            hmm ▸ hm2, hlm, hmm ▸ hm1, hmm ▸ hm12,
            hyy ▸ hy2, hly, hdy, hyy ▸ hy1, hyy ▸ hy9⟩
        · rw [if_neg hy1] at h; cases h

/-- Witness for C8 at the well-formed input `08-2025`. -/
theorem C8_witness :
    ∃ mcs ycs : List Char, ("08-2025" : String).data = mcs ++ '-' :: ycs ∧
      matchMonth mcs = some 8 ∧ (mcs.length = 1 ∨ mcs.length = 2) ∧
      1 ≤ 8 ∧ 8 ≤ 12 ∧
      matchYear4 ycs = some 2025 ∧ ycs.length = 4 ∧ ycs.all isDigitChar = true ∧
      1 ≤ 2025 ∧ 2025 ≤ 9999 :=
  C8_parseMonthYear_amended "08-2025" 2025 8 (by decide)

/-- Counterexample for C9: `load_expenses` installs whatever number the
budget storage holds, so with the expense storage present and the
budget storage containing `"-5"` the reachable post-load state has a
non-positive budget. -/
theorem C9_counterexample :
    (load_expenses ⟨some [expHeader], some "-5"⟩ initState).budget = some (-5) ∧
    ¬ (0 : ℚ) < -5 := by
  exact ⟨by decide, by decide⟩

/-- C9 amended: the invariant "budget is absent or strictly positive"
holds initially and is preserved by `add_expense` and by `set_budget`
(which rejects non-positive values without changing the budget); it is
preserved by `load_expenses` only under the proviso that the budget
storage's parsed content, if any, is positive — a stored non-positive
value is installed unchecked. -/
theorem C9_budget_invariant_amended :
    BudgetInv initState ∧
    (∀ st r, BudgetInv st → BudgetInv (add_expense r st)) ∧
    (∀ st v, BudgetInv st → BudgetInv (set_budget v st)) ∧
    (∀ st fs, BudgetInv st →
      (∀ b, readBudgetFile fs.budgetFile = some b → 0 < b) →
      BudgetInv (load_expenses fs st)) := by
  refine ⟨?_, ?_, ?_, ?_⟩
  · intro b hb
    simp [initState] at hb
  · intro st r hst b hb
    exact hst b hb
  · intro st v hst b hb
    unfold set_budget at hb
    by_cases hv : v ≤ 0
    · rw [if_pos hv] at hb
      exact hst b hb
    · rw [if_neg hv] at hb
      simp only [Option.some.injEq] at hb
      rw [← hb]
      exact lt_of_not_le hv
  · intro st fs hst hfile b hb
    cases hfs : fs.expensesFile with
    | none =>
      rw [load_expenses_none fs st hfs] at hb
      exact hst b hb
    | some rows =>
      rw [load_expenses_some fs st rows hfs] at hb
      by_cases hok : (load_expense_rows (rows.drop 1)).2 = true
      · rw [if_pos hok] at hb
        exact hfile b hb
      · rw [if_neg hok] at hb
        exact hst b hb

/-- Witness for C9: loading with an expense storage holding only the
header and a budget storage holding `"100"` keeps the invariant. -/
theorem C9_witness : BudgetInv (load_expenses ⟨some [expHeader], some "100"⟩ initState) :=
  C9_budget_invariant_amended.2.2.2 initState ⟨some [expHeader], some "100"⟩
    C9_budget_invariant_amended.1
    (fun b hb => by
      rw [show readBudgetFile (some "100") = some (100 : ℚ) from by decide] at hb
      rw [← Option.some.inj hb]
      decide)
